import Mathlib

/-
Verification of the reencoding repository (src/reencode.py) against its
natural-language specification.  The Python source is shallowly embedded:
pure path/string manipulation becomes functions on Lean strings, the sqlite
bad-encodings table becomes an association list with the primary-key
constraint made explicit, and the effectful orchestrator `reencode` becomes a
pure step function over an environment that records the facts the real
function observes through the filesystem and the external tools (probe
results, file sizes, the bytes ffmpeg would produce).
-/

namespace ReencodePy

/-! ### String helpers (Python str semantics over lists of characters) -/

/-- hasStart p s: the characters p occur at the very beginning of s
(Python str.startswith). -/
def hasStart : List Char → List Char → Bool
  | [], _ => true
  | _ :: _, [] => false
  | a :: p, b :: s => if a = b then hasStart p s else false

/-- hasEnd e s: the characters e occur at the very end of s
(Python str.endswith). -/
def hasEnd (e s : List Char) : Bool :=
  hasStart e.reverse s.reverse

/-- hasSub t s: t occurs contiguously somewhere inside s
(Python `t in s`). -/
def hasSub (t : List Char) : List Char → Bool
  | [] => hasStart t []
  | c :: rest => hasStart t (c :: rest) || hasSub t rest

/-- Python s.endswith(t). -/
def strEndsWith (s t : String) : Bool :=
  hasEnd t.data s.data

/-- Python `t in s` (substring containment). -/
def strContains (s t : String) : Bool :=
  hasSub t.data s.data

/-- Python s.lower(), restricted to the ASCII case mapping. -/
def strToLower (s : String) : String :=
  ⟨s.data.map Char.toLower⟩

/-! ### Path manipulation (os.path on POSIX) -/

/-- os.path.dirname: everything before the last slash; the head keeps its
trailing slashes stripped unless it consists of slashes only. -/
def dirname (f : String) : String :=
  let head := (f.data.reverse.dropWhile (· ≠ '/')).reverse
  if head.all (· = '/') then ⟨head⟩
  else ⟨(head.reverse.dropWhile (· = '/')).reverse⟩

/-- os.path.basename: everything after the last slash. -/
def basename (f : String) : String :=
  ⟨(f.data.reverse.takeWhile (· ≠ '/')).reverse⟩

/-- Python b.rsplit(".", 1)[0]: b up to its last dot, or all of b when it
has no dot. -/
def stemOf (b : String) : String :=
  if '.' ∈ b.data then ⟨((b.data.reverse.dropWhile (· ≠ '.')).drop 1).reverse⟩
  else b

/-- as_mp4 (src/reencode.py): replace the final extension of the basename
with .mp4 and rejoin with the directory (os.path.join). -/
def as_mp4 (f : String) : String :=
  let d := dirname f
  let b := stemOf (basename f) ++ ".mp4"
  if d = "" then b
  else if strEndsWith d "/" then d ++ b
  else d ++ "/" ++ b

/-! ### Size arithmetic (file_size_percent) -/

/-- The floor of a rational, computed from its reduced fraction. -/
def ratFloor (q : ℚ) : ℤ :=
  Int.fdiv q.num (q.den : ℤ)

/-- Round a rational to the nearest integer, ties to the even neighbour
(the rounding Python round uses). -/
def roundHalfEven (q : ℚ) : ℤ :=
  let n := ratFloor q
  let r := q - (n : ℚ)
  if r < 1/2 then n
  else if 1/2 < r then n + 1
  else if n % 2 = 0 then n else n + 1

/-- Python round(q, 1): round to the nearest multiple of one tenth. -/
def round1 (q : ℚ) : ℚ :=
  (roundHalfEven (10 * q) : ℚ) / 10

/-- file_size_percent (src/reencode.py): pct = 100 * s1 / s2 rounded to one
decimal, where s1 and s2 are the byte sizes of the two files.  Python
raises ZeroDivisionError when s2 = 0, embedded here as none.  The float
arithmetic of the source is idealised as exact rational arithmetic. -/
def file_size_percent (s1 s2 : ℕ) : Option ℚ :=
  if s2 = 0 then none
  else some (round1 ((100 * s1 : ℚ) / (s2 : ℚ)))

/-! ### The bad-encodings ledger (class BadEncodingDatabase) -/

/-- The sqlite primary key (hash, crf, preset).  The sha1 digest of the
file contents is abstracted as a natural number. -/
structure LedgerKey where
  hash : ℕ
  crf : ℤ
  preset : String
deriving DecidableEq

/-- The rows of the bad_encodings table: key together with output_bytes. -/
abbrev Ledger := List (LedgerKey × ℕ)

namespace BadEncodingDatabase

/-- BadEncodingDatabase.check: SELECT output_bytes for the exact key, none
when the row is absent. -/
def check : Ledger → LedgerKey → Option ℕ
  | [], _ => none
  | (k, v) :: rest, k2 => if k = k2 then some v else check rest k2

/-- BadEncodingDatabase.insert: INSERT the row.  The declared PRIMARY KEY
(hash, crf, preset) makes a duplicate insert an IntegrityError, embedded
as none; a successful insert extends the table. -/
def insert (db : Ledger) (k : LedgerKey) (output_bytes : ℕ) : Option Ledger :=
  match check db k with
  | some _ => none
  | none => some ((k, output_bytes) :: db)

end BadEncodingDatabase

/-! ### copy_file and the filesystem it acts on -/

/-- The visible filesystem state: paths mapped to abstract file contents. -/
abbrev FS := List (String × ℕ)

/-- Look a path up in the filesystem. -/
def fsGet : FS → String → Option ℕ
  | [], _ => none
  | (p, c) :: rest, q => if p = q then some c else fsGet rest q

/-- Write contents at a path (create or replace). -/
def fsSet (fs : FS) (p : String) (c : ℕ) : FS :=
  (p, c) :: fs.filter (fun e => decide (e.1 ≠ p))

/-- Result of copy_file: the filesystem afterwards and whether it
succeeded (false = Log.error raised). -/
structure CopyResult where
  fs : FS
  ok : Bool
deriving DecidableEq

/-- copy_file (src/reencode.py).  Refuses when the destination exists,
before touching anything.  Otherwise it touches and removes a probe file at
dst to decide hard-link versus copy (dev gives the st_dev of the volume a
path lives — the decision does not change the resulting contents, since a
hard link and a byte copy both leave dst holding the bytes of src), then
links or copies.  A missing source makes os.stat inside files_on_same_fs
raise after the probe file was created, leaking an empty probe file. -/
def copy_file (fs : FS) (dev : String → ℕ) (src dst : String) : CopyResult :=
  if (fsGet fs dst).isSome then ⟨fs, false⟩
  else
    match fsGet fs src with
    | none => ⟨fsSet fs dst 0, false⟩
    | some c =>
      let _can_link := dev src = dev dst
      ⟨fsSet fs dst c, true⟩

/-! ### backup, is_backup and the skip policy -/

/-- backup (src/reencode.py): shutil.move(f, "REENC_BACKUP-" + f); the
function of interest is the path the file is renamed to. -/
def backup (f : String) : String :=
  "REENC_BACKUP-" ++ f

/-- is_backup (src/reencode.py): "REENC_BACKUP" in f. -/
def is_backup (f : String) : Bool :=
  strContains f "REENC_BACKUP"

/-- SKIP_EXTS (src/reencode.py): the fixed denylist of non-video
extensions. -/
def SKIP_EXTS : List String :=
  ["jpg", "png", "jpeg", "posts", "yml", "info", "sh", "pdf", "swf", "xml",
   "mp3", "css", "url", "txt", "html", "exe", "py", "dv", "heic", "db",
   "zip", "psd", "pyc", "pem", "jpe", "typed", "readme", "md", "rar"]

/-- skip_file (src/reencode.py): is_backup(f) or
any(f.lower().endswith(ext) for ext in SKIP_EXTS). -/
def skip_file (f : String) : Bool :=
  is_backup f || SKIP_EXTS.any (fun ext => strEndsWith (strToLower f) ext)

/-- The extension of a path as the specification speaks of it: the text
after the last dot of the name, empty when there is no dot.  Used only to
compare skip_file with the words of the spec. -/
def extOf (f : String) : String :=
  if '.' ∈ f.data then ⟨(f.data.reverse.takeWhile (· ≠ '.')).reverse⟩
  else ""

/-! ### The orchestrator, reencode -/

/-- Everything the real reencode observes from the filesystem and the
external tools for one invocation: the precondition probes on the input and
output paths, the ffprobe result, the sha1 digest of the input, the byte
size of the input and the byte size the external encoder would write to the
scratch file. -/
structure EncodeEnv where
  isfile : Bool
  islink : Bool
  out_exists : Bool
  isvideo : Bool
  codec : String
  acodec : Option String
  hash : ℕ
  in_bytes : ℕ
  enc_bytes : ℕ
deriving DecidableEq

/-- How one invocation of reencode ends. -/
inductive Outcome where
  /-- One of the Log.check preconditions raised ErrorCalled. -/
  | validationError : Outcome
  /-- Returned None (dont_copy suppressed the duplication). -/
  | noAction : Outcome
  /-- The input was duplicated as-is to the output path, which is
  returned. -/
  | copiedInput (out : String) : Outcome
  /-- The freshly encoded scratch file was placed at the output path,
  which is returned. -/
  | committed (out : String) : Outcome
  /-- A ledger row was recorded and Log.error raised File size
  increased. -/
  | sizeRegression : Outcome
  /-- A duplicate-key INSERT raised sqlite3.IntegrityError. -/
  | integrityError : Outcome
  /-- file_size_percent raised ZeroDivisionError (empty input file). -/
  | zeroDivision : Outcome
deriving DecidableEq

/-- The observable summary of one invocation: its outcome, whether ffmpeg
ran, whether db.check was evaluated, and the ledger contents afterwards. -/
structure RunTrace where
  outcome : Outcome
  encoder_invoked : Bool
  ledger_checked : Bool
  ledger : Ledger
deriving DecidableEq

/-- The tail of reencode from the ffmpeg call on: encode into the scratch
file, measure the size ratio, and either record a ledger row and fail
(size regression), or commit the scratch file to the output path. -/
def encodeStep (e : EncodeEnv) (db : Ledger) (key : LedgerKey) (out : String)
    (force checked : Bool) : RunTrace :=
  match file_size_percent e.enc_bytes e.in_bytes with
  | none => ⟨.zeroDivision, true, checked, db⟩
  | some percent =>
    if force = false ∧ 100 ≤ percent then
      match BadEncodingDatabase.insert db key e.enc_bytes with
      | some db2 => ⟨.sizeRegression, true, checked, db2⟩
      | none => ⟨.integrityError, true, checked, db⟩
    else ⟨.committed out, true, checked, db⟩

/-- reencode (src/reencode.py), as a pure step function.  The output name
is forced to .mp4, the four Log.check preconditions run, the codecs decide
encoder and aencoder, the hevc/aac shortcut applies unless force, the
ledger is consulted unless force — a hit counts only when the stored value
is truthy in Python, that is nonzero — and otherwise the encode step
runs. -/
def reencode (e : EncodeEnv) (db : Ledger) (out_file : String)
    (crf : ℤ) (preset : String) (force : Bool) (dont_copy : Bool) : RunTrace :=
  let out := if strEndsWith out_file ".mp4" then out_file else as_mp4 out_file
  if e.isfile = false ∨ e.islink = true ∨ e.out_exists = true ∨ e.isvideo = false then
    ⟨.validationError, false, false, db⟩
  else
    let encoder := if e.codec = "hevc" then "copy" else "libx265"
    let aencoder := if e.acodec = some "aac" ∨ e.acodec = none then "copy" else "aac"
    if force = false ∧ encoder = "copy" ∧ aencoder = "copy" then
      if dont_copy then ⟨.noAction, false, false, db⟩
      else ⟨.copiedInput out, false, false, db⟩
    else
      let key : LedgerKey := ⟨e.hash, crf, preset⟩
      if force then encodeStep e db key out force false
      else
        match BadEncodingDatabase.check db key with
        | some v =>
          if v ≠ 0 then
            if dont_copy then ⟨.noAction, false, true, db⟩
            else ⟨.copiedInput out, false, true, db⟩
          else encodeStep e db key out force true
        | none => encodeStep e db key out force true

/-- The four Log.check preconditions of reencode: the input is a regular
file and not a symlink, the output does not exist, and the probe
succeeded. -/
def envOk (e : EncodeEnv) : Prop :=
  e.isfile = true ∧ e.islink = false ∧ e.out_exists = false ∧ e.isvideo = true

/-! ### Helper lemmas -/

theorem hasStart_append_self (l r : List Char) : hasStart l (l ++ r) = true := by
  induction l with
  | nil => rfl
  | cons a as ih => simp [hasStart, ih]

theorem hasSub_of_hasStart (t s : List Char) (h : hasStart t s = true) :
    hasSub t s = true := by
  cases s with
  | nil => exact h
  | cons c rest => simp [hasSub, h]

/-- On a ledger whose keys satisfy the primary-key invariant, check finds
exactly the recorded value of a stored row. -/
theorem check_eq_of_mem (db : Ledger) (k : LedgerKey) (v : ℕ)
    (hnd : (db.map Prod.fst).Nodup) (hmem : (k, v) ∈ db) :
    BadEncodingDatabase.check db k = some v := by
  induction db with
  | nil => cases hmem
  | cons hd tl ih =>
    obtain ⟨k1, v1⟩ := hd
    simp only [List.map_cons, List.nodup_cons] at hnd
    rcases List.mem_cons.mp hmem with he | hm
    · cases he
      simp [BadEncodingDatabase.check]
    · have hne : k1 ≠ k := by
        intro h
        exact hnd.1 (h ▸ List.mem_map.mpr ⟨(k, v), hm, rfl⟩)
      simpa [BadEncodingDatabase.check, hne] using ih hnd.2 hm

/-! ### Claim C4 -/

/-- Claim C4: record (insert) followed immediately by lookup (check) with
the same key returns exactly the just-recorded output-byte value.  The
insert succeeds exactly when the key is absent, as the append-only
primary-key discipline demands. -/
theorem insert_then_check (db : Ledger) (k : LedgerKey) (v : ℕ)
    (habsent : BadEncodingDatabase.check db k = none) :
    BadEncodingDatabase.insert db k v = some ((k, v) :: db) ∧
    BadEncodingDatabase.check ((k, v) :: db) k = some v := by
  constructor
  · simp [BadEncodingDatabase.insert, habsent]
  · simp [BadEncodingDatabase.check]

theorem insert_then_check_witness :
    BadEncodingDatabase.insert [] ⟨7, 23, "fast"⟩ 123 =
      some [(⟨7, 23, "fast"⟩, 123)] ∧
    BadEncodingDatabase.check [(⟨7, 23, "fast"⟩, 123)] ⟨7, 23, "fast"⟩ =
      some 123 :=
  insert_then_check [] ⟨7, 23, "fast"⟩ 123 rfl

/-! ### Claim C6 -/

/-- Claim C6: inserting a row whose key already exists is an error
(primary-key violation), never an overwrite or a silent no-op, and the
previously recorded output_bytes for a stored key survives every ledger
operation: check reads without writing, a duplicate insert fails leaving
the table as it was, and a successful insert of any other key keeps the
old row visible with its old value. -/
theorem duplicate_insert_is_error (db : Ledger) (k : LedgerKey) (w : ℕ)
    (hstored : BadEncodingDatabase.check db k = some w) :
    (∀ v, BadEncodingDatabase.insert db k v = none) ∧
    (∀ k2 v2 db2, BadEncodingDatabase.insert db k2 v2 = some db2 →
      BadEncodingDatabase.check db2 k = some w) := by
  constructor
  · intro v
    simp [BadEncodingDatabase.insert, hstored]
  · intro k2 v2 db2 hins
    unfold BadEncodingDatabase.insert at hins
    rcases hc : BadEncodingDatabase.check db k2 with _ | w2
    · rw [hc] at hins
      have hdb2 : db2 = (k2, v2) :: db := by
        cases hins
        rfl
      have hne : k2 ≠ k := by
        intro he
        rw [he, hstored] at hc
        cases hc
      rw [hdb2]
      simpa [BadEncodingDatabase.check, hne] using hstored
    · rw [hc] at hins
      cases hins

theorem duplicate_insert_is_error_witness :
    BadEncodingDatabase.insert [(⟨7, 23, "fast"⟩, 9)] ⟨7, 23, "fast"⟩ 5 = none ∧
    BadEncodingDatabase.check
      ((⟨8, 25, "slow"⟩, 4) :: [(⟨7, 23, "fast"⟩, 9)]) ⟨7, 23, "fast"⟩ = some 9 := by
  have h := duplicate_insert_is_error [(⟨7, 23, "fast"⟩, 9)] ⟨7, 23, "fast"⟩ 9 (by decide)
  exact ⟨h.1 5, h.2 ⟨8, 25, "slow"⟩ 4 _ (by decide)⟩

/-! ### Claim C5 -/

/-- Claim C5: when a file already exists at the destination, copy_file
(place) fails and leaves the filesystem — in particular the source file
and the pre-existing destination file — unmodified; it never silently
overwrites an existing destination. -/
theorem copy_refuses_existing (fs : FS) (dev : String → ℕ) (src dst : String)
    (c : ℕ) (hdst : fsGet fs dst = some c) :
    (copy_file fs dev src dst).ok = false ∧
    (copy_file fs dev src dst).fs = fs ∧
    fsGet (copy_file fs dev src dst).fs dst = some c ∧
    fsGet (copy_file fs dev src dst).fs src = fsGet fs src := by
  simp [copy_file, hdst]

theorem copy_refuses_existing_witness :
    (copy_file [("a.mp4", 1), ("b.mp4", 2)] (fun _ => 0) "a.mp4" "b.mp4").ok = false ∧
    (copy_file [("a.mp4", 1), ("b.mp4", 2)] (fun _ => 0) "a.mp4" "b.mp4").fs =
      [("a.mp4", 1), ("b.mp4", 2)] ∧
    fsGet (copy_file [("a.mp4", 1), ("b.mp4", 2)] (fun _ => 0) "a.mp4" "b.mp4").fs "b.mp4" =
      some 2 ∧
    fsGet (copy_file [("a.mp4", 1), ("b.mp4", 2)] (fun _ => 0) "a.mp4" "b.mp4").fs "a.mp4" =
      fsGet [("a.mp4", 1), ("b.mp4", 2)] "a.mp4" :=
  copy_refuses_existing [("a.mp4", 1), ("b.mp4", 2)] (fun _ => 0) "a.mp4" "b.mp4" 2
    (by decide)

/-! ### Claim C7 -/

/-- Claim C7: with force=true the ledger is never consulted and never
written — its stored rows are unchanged even when the encoded output is at
least as large as the input — and the already-target-format shortcut is
not taken: the invocation never ends by duplicating the input or by the
no-action signal, and never records a size regression. -/
theorem force_bypasses_ledger (e : EncodeEnv) (db : Ledger) (out_file : String)
    (crf : ℤ) (preset : String) (dont_copy : Bool) :
    (reencode e db out_file crf preset true dont_copy).ledger_checked = false ∧
    (reencode e db out_file crf preset true dont_copy).ledger = db ∧
    (reencode e db out_file crf preset true dont_copy).outcome ≠ .noAction ∧
    (∀ o, (reencode e db out_file crf preset true dont_copy).outcome ≠ .copiedInput o) ∧
    (reencode e db out_file crf preset true dont_copy).outcome ≠ .sizeRegression ∧
    (reencode e db out_file crf preset true dont_copy).outcome ≠ .integrityError := by
  unfold reencode encodeStep
  simp only [Bool.true_eq_false, false_and, if_false, eq_self_iff_true, if_true]
  split
  · simp
  · split <;> simp

/-! ### Claim C10 -/

/-- Claim C10: file_size_percent divides by the size of its second
argument with no guard, so a zero-byte second file raises
ZeroDivisionError (none) while any nonzero size yields a value; in
consequence the post-encode size check of reencode is only defined for a
non-empty input file — an invocation that reaches the encode step with a
zero-byte input ends in the ZeroDivisionError outcome. -/
theorem percent_needs_nonempty_input (s1 s2 : ℕ) (e : EncodeEnv) (db : Ledger)
    (out_file : String) (crf : ℤ) (preset : String) (dont_copy : Bool)
    (h2 : s2 ≠ 0) (hok : envOk e) (hempty : e.in_bytes = 0) :
    file_size_percent s1 0 = none ∧
    (file_size_percent s1 s2).isSome = true ∧
    (reencode e db out_file crf preset true dont_copy).outcome = .zeroDivision := by
  obtain ⟨h1, h2l, h3, h4⟩ := hok
  refine ⟨by simp [file_size_percent], by simp [file_size_percent, h2], ?_⟩
  unfold reencode encodeStep
  simp [h1, h2l, h3, h4, Bool.true_eq_false, file_size_percent, hempty]

theorem percent_needs_nonempty_input_witness :
    file_size_percent 5 0 = none ∧
    (file_size_percent 5 4).isSome = true ∧
    (reencode ⟨true, false, false, true, "h264", some "aac", 7, 0, 5⟩ []
      "out.mp4" 23 "fast" true false).outcome = .zeroDivision :=
  percent_needs_nonempty_input 5 4
    ⟨true, false, false, true, "h264", some "aac", 7, 0, 5⟩ [] "out.mp4" 23 "fast" false
    (by decide) ⟨rfl, rfl, rfl, rfl⟩ rfl

/-! ### Claim C3 -/

/-- Claim C3: when the probed video codec is already the target (hevc) and
the probed audio codec is the target (aac) or absent, reencode with
force=false never invokes the external encoder: with dont_copy it returns
the no-action signal, otherwise it duplicates the input to the output
path. -/
theorem already_target_skips_encoder (e : EncodeEnv) (db : Ledger) (out_file : String)
    (crf : ℤ) (preset : String) (dont_copy : Bool)
    (hok : envOk e) (hv : e.codec = "hevc")
    (ha : e.acodec = some "aac" ∨ e.acodec = none) :
    (reencode e db out_file crf preset false dont_copy).encoder_invoked = false ∧
    (dont_copy = true →
      (reencode e db out_file crf preset false dont_copy).outcome = .noAction) ∧
    (dont_copy = false →
      ∃ o, (reencode e db out_file crf preset false dont_copy).outcome = .copiedInput o) := by
  obtain ⟨h1, h2, h3, h4⟩ := hok
  unfold reencode
  rcases ha with ha | ha <;>
    cases dont_copy <;>
      simp [h1, h2, h3, h4, hv, ha]

theorem already_target_skips_encoder_witness :
    (reencode ⟨true, false, false, true, "hevc", some "aac", 7, 10, 12⟩ []
      "out.mp4" 23 "fast" false false).encoder_invoked = false ∧
    (reencode ⟨true, false, false, true, "hevc", some "aac", 7, 10, 12⟩ []
      "out.mp4" 23 "fast" false false).outcome = .copiedInput "out.mp4" := by
  have h := already_target_skips_encoder
    ⟨true, false, false, true, "hevc", some "aac", 7, 10, 12⟩ [] "out.mp4" 23 "fast" false
    ⟨rfl, rfl, rfl, rfl⟩ rfl (Or.inl rfl)
  exact ⟨h.1, by decide⟩

/-! ### Claim C1 -/

/-- Claim C1, counterexample: a ledger row whose recorded output-byte
count is 0 is present in the ledger and the lookup returns it exactly, yet
reencode with the same crf and preset and force=false still invokes the
external encoder — the source guards the hit branch with the Python
truthiness of the looked-up value, and 0 is falsy. -/
theorem ledger_zero_entry_defeats_hit :
    BadEncodingDatabase.check [(⟨7, 23, "fast"⟩, 0)] ⟨7, 23, "fast"⟩ = some 0 ∧
    (reencode ⟨true, false, false, true, "h264", some "aac", 7, 10, 12⟩
      [(⟨7, 23, "fast"⟩, 0)] "out.mp4" 23 "fast" false false).encoder_invoked = true := by
  with_unfolding_all decide

/-- Claim C1 (amended): for every file whose (content hash, crf, preset)
triple is recorded in the ledger with a nonzero output-byte count, the
lookup returns the exact recorded count, and reencode on that file with
the same crf and preset and force=false never invokes the external
encoder: it duplicates the input to the output path, or returns the
no-action signal when dont_copy is set. -/
theorem ledger_hit_skips_encoder (e : EncodeEnv) (db : Ledger) (out_file : String)
    (crf : ℤ) (preset : String) (dont_copy : Bool) (v : ℕ)
    (hok : envOk e) (hnd : (db.map Prod.fst).Nodup)
    (hmem : (⟨e.hash, crf, preset⟩, v) ∈ db) (hv : v ≠ 0) :
    BadEncodingDatabase.check db ⟨e.hash, crf, preset⟩ = some v ∧
    (reencode e db out_file crf preset false dont_copy).encoder_invoked = false ∧
    (dont_copy = true →
      (reencode e db out_file crf preset false dont_copy).outcome = .noAction) ∧
    (dont_copy = false →
      ∃ o, (reencode e db out_file crf preset false dont_copy).outcome = .copiedInput o) := by
  have hchk := check_eq_of_mem db ⟨e.hash, crf, preset⟩ v hnd hmem
  obtain ⟨h1, h2, h3, h4⟩ := hok
  refine ⟨hchk, ?_⟩
  unfold reencode
  by_cases hc : e.codec = "hevc" <;>
    by_cases hac : e.acodec = some "aac" ∨ e.acodec = none <;>
      cases dont_copy <;>
        simp [h1, h2, h3, h4, hc, hac, hchk, hv]

theorem ledger_hit_skips_encoder_witness :
    BadEncodingDatabase.check [(⟨7, 23, "fast"⟩, 42)] ⟨7, 23, "fast"⟩ = some 42 ∧
    (reencode ⟨true, false, false, true, "h264", some "aac", 7, 10, 12⟩
      [(⟨7, 23, "fast"⟩, 42)] "out.mp4" 23 "fast" false false).encoder_invoked = false ∧
    (false = true →
      (reencode ⟨true, false, false, true, "h264", some "aac", 7, 10, 12⟩
        [(⟨7, 23, "fast"⟩, 42)] "out.mp4" 23 "fast" false false).outcome = .noAction) ∧
    (false = false →
      ∃ o, (reencode ⟨true, false, false, true, "h264", some "aac", 7, 10, 12⟩
        [(⟨7, 23, "fast"⟩, 42)] "out.mp4" 23 "fast" false false).outcome = .copiedInput o) :=
  ledger_hit_skips_encoder ⟨true, false, false, true, "h264", some "aac", 7, 10, 12⟩
    [(⟨7, 23, "fast"⟩, 42)] "out.mp4" 23 "fast" false 42
    ⟨rfl, rfl, rfl, rfl⟩ (by decide) (by decide) (by decide)

/-! ### Claim C2 -/

/-- Claim C2: the size ratio is percent = round1 (100 * scratch_bytes /
input_bytes) and the computation is deterministic — for an input of
1,000,000 bytes and an output of 1,050,000 bytes it equals exactly 105.0 —
and whenever the encode step is reached with force=false and percent at
least 100, the invocation records a ledger row carrying the observed
output size and then fails with the size-regression error. -/
theorem size_regression_records_and_fails (e : EncodeEnv) (db : Ledger)
    (out_file : String) (crf : ℤ) (preset : String) (dont_copy : Bool) (p : ℚ)
    (hok : envOk e)
    (hne : ¬ (e.codec = "hevc" ∧ (e.acodec = some "aac" ∨ e.acodec = none)))
    (hmiss : BadEncodingDatabase.check db ⟨e.hash, crf, preset⟩ = none)
    (hp : file_size_percent e.enc_bytes e.in_bytes = some p) (hge : 100 ≤ p) :
    file_size_percent 1050000 1000000 = some 105 ∧
    (reencode e db out_file crf preset false dont_copy).outcome = .sizeRegression ∧
    (reencode e db out_file crf preset false dont_copy).ledger =
      (⟨e.hash, crf, preset⟩, e.enc_bytes) :: db := by
  obtain ⟨h1, h2, h3, h4⟩ := hok
  refine ⟨by with_unfolding_all decide, ?_⟩
  unfold reencode encodeStep
  by_cases hc : e.codec = "hevc" <;>
    by_cases hac : e.acodec = some "aac" ∨ e.acodec = none
  · exact absurd ⟨hc, hac⟩ hne
  all_goals
    simp [h1, h2, h3, h4, hc, hac, hmiss, hp, hge, BadEncodingDatabase.insert]

theorem size_regression_records_and_fails_witness :
    file_size_percent 1050000 1000000 = some 105 ∧
    (reencode ⟨true, false, false, true, "h264", some "aac", 7, 10, 12⟩ []
      "out.mp4" 23 "fast" false false).outcome = .sizeRegression ∧
    (reencode ⟨true, false, false, true, "h264", some "aac", 7, 10, 12⟩ []
      "out.mp4" 23 "fast" false false).ledger = (⟨7, 23, "fast"⟩, 12) :: [] :=
  size_regression_records_and_fails
    ⟨true, false, false, true, "h264", some "aac", 7, 10, 12⟩ [] "out.mp4" 23 "fast" false
    120 ⟨rfl, rfl, rfl, rfl⟩ (by simp) rfl
    (by with_unfolding_all decide) (by with_unfolding_all decide)

/-! ### Claim C8 -/

theorem is_backup_backup (f : String) : is_backup (backup f) = true := by
  unfold is_backup backup strContains
  have hdata : ("REENC_BACKUP-" ++ f).data = "REENC_BACKUP".data ++ ('-' :: f.data) := by
    rw [String.data_append]
    rfl
  rw [hdata]
  exact hasSub_of_hasStart _ _ (hasStart_append_self _ _)

theorem skip_file_backup (f : String) : skip_file (backup f) = true := by
  unfold skip_file
  rw [is_backup_backup]
  rfl

theorem dirname_eq_empty_of_no_slash (s : String) (h : '/' ∉ s.data) :
    dirname s = "" := by
  have hd : s.data.reverse.dropWhile (· ≠ '/') = [] := by
    rw [List.dropWhile_eq_nil_iff]
    intro x hx
    simp only [decide_eq_true_eq]
    intro he
    exact h (he ▸ List.mem_reverse.mp hx)
  unfold dirname
  rw [hd]
  rfl

/-- Claim C8, counterexample: backup prepends the marker to the whole path
string, not to the file name, so for an input inside a directory the
renamed file is not in the same directory as the original — the marker
lands on the first path component instead. -/
theorem backup_changes_directory :
    backup "a/b.mkv" = "REENC_BACKUP-a/b.mkv" ∧
    dirname "a/b.mkv" = "a" ∧
    dirname (backup "a/b.mkv") = "REENC_BACKUP-a" ∧
    dirname (backup "a/b.mkv") ≠ dirname "a/b.mkv" := by decide

/-- Claim C8 (amended): backup renames the original by prepending the
fixed marker REENC_BACKUP- to the path string — which keeps the file in
the same directory (only) when the path has no directory component — and
every renamed file is recognized by is_backup and excluded from
processing by skip_file. -/
theorem backup_marks_and_skips (f : String) (h : '/' ∉ f.data) :
    backup f = "REENC_BACKUP-" ++ f ∧
    is_backup (backup f) = true ∧
    skip_file (backup f) = true ∧
    dirname (backup f) = dirname f := by
  refine ⟨rfl, is_backup_backup f, skip_file_backup f, ?_⟩
  have hm : '/' ∉ ("REENC_BACKUP-" ++ f).data := by
    rw [String.data_append]
    intro hmem
    rcases List.mem_append.mp hmem with hm1 | hm2
    · exact absurd hm1 (by decide)
    · exact h hm2
  have hb : backup f = "REENC_BACKUP-" ++ f := rfl
  rw [hb, dirname_eq_empty_of_no_slash _ hm, dirname_eq_empty_of_no_slash _ h]

theorem backup_marks_and_skips_witness :
    backup "b.mkv" = "REENC_BACKUP-" ++ "b.mkv" ∧
    is_backup (backup "b.mkv") = true ∧
    skip_file (backup "b.mkv") = true ∧
    dirname (backup "b.mkv") = dirname "b.mkv" :=
  backup_marks_and_skips "b.mkv" (by decide)

/-! ### Claim C9 -/

theorem hasEnd_append (e a : List Char) : hasEnd e (a ++ e) = true := by
  unfold hasEnd
  rw [List.reverse_append]
  exact hasStart_append_self e.reverse a.reverse

theorem skip_file_iff (f : String) :
    skip_file f = true ↔
      is_backup f = true ∨ ∃ e ∈ SKIP_EXTS, strEndsWith (strToLower f) e = true := by
  simp [skip_file, List.any_eq_true]

theorem skip_of_ext_mem (f : String) (hm : extOf f ∈ SKIP_EXTS) :
    skip_file f = true := by
  by_cases hdot : '.' ∈ f.data
  · have hext : (extOf f).data = (f.data.reverse.takeWhile (fun c => decide (c ≠ '.'))).reverse := by
      unfold extOf
      rw [if_pos hdot]
    have hsplit : f.data =
        (f.data.reverse.dropWhile (fun c => decide (c ≠ '.'))).reverse ++ (extOf f).data := by
      rw [hext, ← List.reverse_append, List.takeWhile_append_dropWhile, List.reverse_reverse]
    have hfix : (extOf f).data.map Char.toLower = (extOf f).data := by
      have hlower : ∀ x ∈ SKIP_EXTS, strToLower x = x := by decide
      have := hlower (extOf f) hm
      exact congrArg String.data this
    have hend : strEndsWith (strToLower f) (extOf f) = true := by
      unfold strEndsWith strToLower
      show hasEnd (extOf f).data (f.data.map Char.toLower) = true
      rw [hsplit, List.map_append, hfix]
      exact hasEnd_append _ _
    unfold skip_file
    rw [Bool.or_eq_true]
    right
    exact List.any_eq_true.mpr ⟨extOf f, hm, hend⟩
  · have hempty : extOf f = "" := by
      unfold extOf
      rw [if_neg hdot]
    rw [hempty] at hm
    exact absurd hm (by decide)

/-- Claim C9, counterexample: skip_file matches denylisted strings as raw
suffixes of the lowercased path, without a dot boundary — the path
clip.xsh has extension xsh, which is not in the denylist, and carries no
backup marker, yet it is skipped because the path ends with the denylist
entry sh. -/
theorem skip_file_not_extension_based :
    skip_file "clip.xsh" = true ∧
    is_backup "clip.xsh" = false ∧
    extOf "clip.xsh" = "xsh" ∧
    extOf "clip.xsh" ∉ SKIP_EXTS := by decide

/-- Claim C9 (amended): skip_file returns true if and only if the path
carries the backup marker or the lowercased path ends with one of the
denylist strings (a raw suffix match, not an extension match); a
denylisted extension is in particular such a suffix, so every path whose
extension is in the denylist is skipped. -/
theorem skip_policy_amended (f : String) :
    (skip_file f = true ↔
      is_backup f = true ∨ ∃ e ∈ SKIP_EXTS, strEndsWith (strToLower f) e = true) ∧
    (extOf f ∈ SKIP_EXTS → skip_file f = true) :=
  ⟨skip_file_iff f, skip_of_ext_mem f⟩

theorem skip_policy_amended_witness :
    (skip_file "a.jpg" = true ↔
      is_backup "a.jpg" = true ∨
        ∃ e ∈ SKIP_EXTS, strEndsWith (strToLower "a.jpg") e = true) ∧
    (extOf "a.jpg" ∈ SKIP_EXTS → skip_file "a.jpg" = true) :=
  skip_policy_amended "a.jpg"

end ReencodePy
